import Mathlib

/-!
Verification of the PWM driver of ZeroPilot-SW
(src/Safety/Libraries/Drivers/Inc/PWM.hpp).

The repository ships only the header: the member-function bodies live in a
PWM.cpp that is not part of the sources.  Every operation below is therefore
modelled from the specification, at the types the header declares
(`uint32_t` limits, `uint8_t percent`, `PWMChannel channels[12]`).  The GPIO
and timer collaborators are opaque per the spec; their outcomes enter the
model as `StatusCode` oracles.
-/

/-- Result codes produced by the GPIO/timer collaborators and propagated
verbatim by the driver.  Modelled from the spec: `StatusCode` is declared in
GPIO.hpp, which is absent from the sources; the spec's error-handling design
gives the taxonomy `Success`, `HardwareConfigurationFailure`,
`InvalidArgument`. -/
inductive StatusCode where
  | Success
  | HardwareConfigurationFailure
  | InvalidArgument
deriving DecidableEq

/-- `2^32`, the modulus of the C++ `uint32_t` arithmetic used by the driver
(the header declares `min_signal`, `max_signal`, `period` as `uint32_t`). -/
def U32 : Nat := 2 ^ 32

/-- One PWM output channel: the state of class `PWMChannel`.  The identity
fields mirror the private members `pin` (port, pin number, alternate
function), `timer` and `timer_channel`; they are bound at construction and
never change.  `min_signal`/`max_signal` mirror the `uint32_t` calibration
members.  `has_limits` records whether `setLimits` has ever been called,
`is_setup` whether the peripheral is initialized, and `compare` the value
last written to the timer compare register (`none` = disarmed/never
written); these three model the implicit runtime state the spec describes. -/
structure PWMChannel where
  port : Nat
  pin_num : Nat
  alternate_function : Nat
  timer_id : Nat
  timer_channel : Nat
  min_signal : Nat
  max_signal : Nat
  has_limits : Bool
  is_setup : Bool
  compare : Option Nat
deriving DecidableEq

/-- Modelled from the spec: the constructor
`PWMChannel(port, pin_num, alternate_function, timer, channel)` binds
identity only and does not touch hardware; no limits are set yet. -/
def PWMChannel.make (port pin_num af timer_id timer_channel : Nat) : PWMChannel :=
  { port := port, pin_num := pin_num, alternate_function := af,
    timer_id := timer_id, timer_channel := timer_channel,
    min_signal := 0, max_signal := 0,
    has_limits := false, is_setup := false, compare := none }

/-- A default-constructed channel (`PWMChannel() = default`). -/
def chInit : PWMChannel := PWMChannel.make 0 0 0 0 0

/-- Modelled from the spec: the state effect of `PWMChannel::reset` —
restore the pin to its default (non-PWM) state and disarm the timer compare
unit.  Calibration limits are not touched (the spec's reset description
covers only the pin and the compare unit). -/
def PWMChannel.resetState (c : PWMChannel) : PWMChannel :=
  { c with is_setup := false, compare := none }

/-- Modelled from the spec: `PWMChannel::reset`.  Reset on an already-reset
channel is a no-op returning success; otherwise the pin-reset primitive runs
(its outcome is the oracle `hw`) and the channel returns to its default
state. -/
def PWMChannel.reset (hw : StatusCode) (c : PWMChannel) : StatusCode × PWMChannel :=
  if c.is_setup then (hw, c.resetState) else (.Success, c)

/-- Modelled from the spec: `PWMChannel::setup`.  If already set up it first
performs a full reset (per the header doc comment), then configures the pin
and arms the timer compare unit; the collaborator outcome is the oracle
`hw`, propagated unchanged.  The channel is marked initialized only on
success. -/
def PWMChannel.setup (hw : StatusCode) (c : PWMChannel) : StatusCode × PWMChannel :=
  let c0 := if c.is_setup then c.resetState else c
  (hw, if hw = .Success then { c0 with is_setup := true } else c0)

/-- Modelled from the spec: `PWMChannel::setLimits(min, max)` stores the two
bounds with no validation.  The stores are `uint32_t` assignments, hence the
reduction modulo `2^32`. -/
def PWMChannel.setLimits (c : PWMChannel) (mn mx : Nat) : PWMChannel :=
  { c with min_signal := mn % U32, max_signal := mx % U32, has_limits := true }

/-- The pulse width `min_signal + (max_signal - min_signal) * percent / 100`
of the spec, evaluated at the header's declared types: every operation is
C++ `uint32_t` arithmetic, i.e. modulo `2^32`, with wrap-around
subtraction. -/
def width32 (mn mx pct : Nat) : Nat :=
  (mn + (((mx + U32 - mn) % U32) * pct) % U32 / 100) % U32

/-- Modelled from the spec: `PWMChannel::set(percent)` converts the `uint8_t`
percentage into a pulse width and writes it to the timer compare register.
Per the spec's data-model requirement, a channel with no limits set does not
accept percentage commands and treats them as no-ops. -/
def PWMChannel.set (c : PWMChannel) (percent : Nat) : PWMChannel :=
  if c.has_limits then
    { c with compare := some (width32 c.min_signal c.max_signal (percent % 256)) }
  else c

/-- The singleton manager state: `PWMChannel channels[12]` plus the
`is_setup` flag, exactly the private members of class `PWMManager`. -/
@[ext]
structure PWMManager where
  channels : Fin 12 → PWMChannel
  is_setup : Bool

/-- Replace one channel of the manager's array. -/
def updateChannel (st : PWMManager) (i : Fin 12) (c : PWMChannel) : PWMManager :=
  { st with channels := Function.update st.channels i c }

/-- A freshly constructed manager (`PWMManager() = default`,
`is_setup = false`). -/
def mInit : PWMManager :=
  { channels := fun _ => chInit, is_setup := false }

/-- The `PWMGroup` enumeration of the header. -/
inductive PWMGroup where
  | PWM_GROUP_1
  | PWM_GROUP_2
  | PWM_GROUP_3_4
  | PWM_GROUP_5_8
  | PWM_GROUP_9_12
deriving DecidableEq

/-- The `PWMGroupSetting` struct of the header: period and pulse bounds in
microseconds (`uint32_t`) plus the polarity flag. -/
structure PWMGroupSetting where
  period : Nat
  min_length : Nat
  max_length : Nat
  inverted : Bool
deriving DecidableEq

/-- The static timer-to-channel table of the header comment:
TIM16 drives PWM 1, TIM17 drives PWM 2, TIM15 drives PWM 3-4, TIM3 drives
PWM 5-8, TIM1 drives PWM 9-12 (channel numbers 0-based). -/
def groupChannels : PWMGroup → List (Fin 12)
  | .PWM_GROUP_1 => [0]
  | .PWM_GROUP_2 => [1]
  | .PWM_GROUP_3_4 => [2, 3]
  | .PWM_GROUP_5_8 => [4, 5, 6, 7]
  | .PWM_GROUP_9_12 => [8, 9, 10, 11]

/-- Modelled from the spec: `PWMManager::configure(group, setting)` sets the
shared timer period (an external timer-collaborator call whose acceptance is
the oracle `periodOk`; on rejection it fails before any state changes) and
calls `setLimits(setting.min_length, setting.max_length)` on every member
channel of the group. -/
def PWMManager.configure (periodOk : Bool) (g : PWMGroup) (s : PWMGroupSetting)
    (st : PWMManager) : StatusCode × PWMManager :=
  let upd : Fin 12 → PWMChannel := fun i =>
    if i ∈ groupChannels g then
      PWMChannel.setLimits (st.channels i) s.min_length s.max_length
    else st.channels i
  if periodOk then (.Success, { st with channels := upd })
  else (.HardwareConfigurationFailure, st)

/-- The setup loop of `PWMManager::setup`, from channel index `i` with `gas`
iterations remaining: call `PWMChannel::setup` on channels `i, i+1, ...` in
order, abort on the first failure returning its status code, and mark
`is_setup` only after all channels succeeded. -/
def setupFromGas (hwS : Fin 12 → StatusCode) : Nat → Nat → PWMManager → StatusCode × PWMManager
  | 0, _, st => (.Success, { st with is_setup := true })
  | gas + 1, i, st =>
    if h : i < 12 then
      if hwS ⟨i, h⟩ = .Success then
        setupFromGas hwS gas (i + 1)
          (updateChannel st ⟨i, h⟩ (PWMChannel.setup (hwS ⟨i, h⟩) (st.channels ⟨i, h⟩)).2)
      else
        (hwS ⟨i, h⟩, updateChannel st ⟨i, h⟩ (PWMChannel.setup (hwS ⟨i, h⟩) (st.channels ⟨i, h⟩)).2)
    else (.Success, { st with is_setup := true })

/-- The reset loop of `PWMManager::reset`, from channel index `i`: call
`PWMChannel::reset` on every remaining channel even when one fails, keeping
the first non-success status in `acc`, and clear `is_setup` at the end. -/
def resetFromGas (hwR : Fin 12 → StatusCode) :
    Nat → Nat → StatusCode → PWMManager → StatusCode × PWMManager
  | 0, _, acc, st => (acc, { st with is_setup := false })
  | gas + 1, i, acc, st =>
    if h : i < 12 then
      resetFromGas hwR gas (i + 1)
        (if acc = .Success then (PWMChannel.reset (hwR ⟨i, h⟩) (st.channels ⟨i, h⟩)).1 else acc)
        (updateChannel st ⟨i, h⟩ (PWMChannel.reset (hwR ⟨i, h⟩) (st.channels ⟨i, h⟩)).2)
    else (acc, { st with is_setup := false })

/-- Modelled from the spec: `PWMManager::reset` — reset all 12 channels,
best effort, propagating the first failure. -/
def PWMManager.reset (hwR : Fin 12 → StatusCode) (st : PWMManager) :
    StatusCode × PWMManager :=
  resetFromGas hwR 12 0 .Success st

/-- The implicit-reset preamble of `PWMManager::setup`: per the header doc
comment, if already setup it will call `reset()` first. -/
def PWMManager.setupBase (hwR : Fin 12 → StatusCode) (st : PWMManager) : PWMManager :=
  if st.is_setup then (PWMManager.reset hwR st).2 else st

/-- Modelled from the spec: `PWMManager::setup` — implicit reset when
already set up, then the 0-to-11 setup loop. -/
def PWMManager.setup (hwS hwR : Fin 12 → StatusCode) (st : PWMManager) :
    StatusCode × PWMManager :=
  setupFromGas hwS 12 0 (PWMManager.setupBase hwR st)

/-- The index actually accessed by `PWMManager::channel(num)`: `num` when
valid, otherwise the defensive fallback to channel 0 promised by the header
doc comment ("Returns the first channel if invalid channel num is given"). -/
def PWMManager.channelIndex (num : Nat) : Fin 12 :=
  if h : num < 12 then ⟨num, h⟩ else ⟨0, by omega⟩

/-- `PWMManager::channel(num)`: the channel the returned reference denotes. -/
def PWMManager.channel (st : PWMManager) (num : Nat) : PWMChannel :=
  st.channels (PWMManager.channelIndex num)

/-- Modelled from the spec: `PWMManager::set_all(percent)` calls
`set(percent)` on all 12 channels unconditionally and always returns
success. -/
def PWMManager.set_all (st : PWMManager) (percent : Nat) : StatusCode × PWMManager :=
  let upd : Fin 12 → PWMChannel := fun i => PWMChannel.set (st.channels i) percent
  (.Success, { st with channels := upd })

/-- The channel states reachable from a default-constructed channel by any
sequence of driver operations, with arbitrary arguments and collaborator
outcomes. -/
inductive ChannelReachable : PWMChannel → Prop where
  | init : ChannelReachable chInit
  | setupStep (hw : StatusCode) (c : PWMChannel) :
      ChannelReachable c → ChannelReachable (PWMChannel.setup hw c).2
  | resetStep (hw : StatusCode) (c : PWMChannel) :
      ChannelReachable c → ChannelReachable (PWMChannel.reset hw c).2
  | limitsStep (mn mx : Nat) (c : PWMChannel) :
      ChannelReachable c → ChannelReachable (PWMChannel.setLimits c mn mx)
  | setStep (p : Nat) (c : PWMChannel) :
      ChannelReachable c → ChannelReachable (PWMChannel.set c p)

/-- The channel states reachable when every `setLimits` call is
well-ordered: `min <= max` with both in `uint32_t` range. -/
inductive ChannelReachableOrdered : PWMChannel → Prop where
  | init : ChannelReachableOrdered chInit
  | setupStep (hw : StatusCode) (c : PWMChannel) :
      ChannelReachableOrdered c → ChannelReachableOrdered (PWMChannel.setup hw c).2
  | resetStep (hw : StatusCode) (c : PWMChannel) :
      ChannelReachableOrdered c → ChannelReachableOrdered (PWMChannel.reset hw c).2
  | limitsStep (mn mx : Nat) (c : PWMChannel) (hord : mn ≤ mx) (hmx : mx < U32) :
      ChannelReachableOrdered c → ChannelReachableOrdered (PWMChannel.setLimits c mn mx)
  | setStep (p : Nat) (c : PWMChannel) :
      ChannelReachableOrdered c → ChannelReachableOrdered (PWMChannel.set c p)

/-- A channel calibrated over the full `uint32_t` range: limits
`(0, 4294967295)` are ordered, yet the interpolation product overflows. -/
def cWide : PWMChannel := PWMChannel.setLimits chInit 0 4294967295

/-- A channel calibrated to the narrow ordered limits `(0, 1)`. -/
def cNarrow : PWMChannel := PWMChannel.setLimits chInit 0 1

/-- A channel calibrated to the ordered limits `(1000, 2000)` (the spec's
servo-style scenario). -/
def cServo : PWMChannel := PWMChannel.setLimits chInit 1000 2000

/-- A collaborator oracle on which every hardware call succeeds. -/
def hwAllOk : Fin 12 → StatusCode := fun _ => .Success

/-- A collaborator oracle on which channels 0-2 succeed and channel 3 (and
all later ones) fail. -/
def hwFail3 : Fin 12 → StatusCode := fun i => if i.val < 3 then .Success else .InvalidArgument

/-- The wrap-around `uint32_t` subtraction agrees with `Nat` subtraction on
ordered operands in range. -/
theorem sub32_eq (mn mx : Nat) (h1 : mn ≤ mx) (h2 : mx < U32) :
    (mx + U32 - mn) % U32 = mx - mn := by
  have hU : 0 < U32 := by decide
  have he : mx + U32 - mn = (mx - mn) + U32 := by omega
  rw [he, Nat.add_mod_right, Nat.mod_eq_of_lt (by omega)]

/-- When neither the multiplication nor the addition overflows `uint32_t`,
`width32` is the exact interpolation formula. -/
theorem width32_exact (mn mx pct : Nat) (h1 : mn ≤ mx) (h2 : mx < U32)
    (h3 : (mx - mn) * pct < U32) (h4 : mn + (mx - mn) * pct / 100 < U32) :
    width32 mn mx pct = mn + (mx - mn) * pct / 100 := by
  unfold width32
  rw [sub32_eq mn mx h1 h2, Nat.mod_eq_of_lt h3, Nat.mod_eq_of_lt h4]

/-- For `percent <= 100` the interpolated offset stays below `max - min`,
so the addition cannot overflow. -/
theorem width32_offset_le (mn mx pct : Nat) (hp : pct ≤ 100) :
    (mx - mn) * pct / 100 ≤ mx - mn := by
  have h : (mx - mn) * pct ≤ (mx - mn) * 100 := Nat.mul_le_mul le_rfl hp
  calc (mx - mn) * pct / 100 ≤ (mx - mn) * 100 / 100 := Nat.div_le_div_right h
    _ = mx - mn := Nat.mul_div_cancel _ (by omega)

/-- `PWMChannel::setup` never touches the calibration limits. -/
theorem setup_limits (hw : StatusCode) (c : PWMChannel) :
    (PWMChannel.setup hw c).2.min_signal = c.min_signal ∧
    (PWMChannel.setup hw c).2.max_signal = c.max_signal := by
  unfold PWMChannel.setup PWMChannel.resetState
  by_cases h : c.is_setup <;> by_cases h2 : hw = .Success <;> simp [h, h2]

/-- `PWMChannel::reset` never touches the calibration limits. -/
theorem reset_limits (hw : StatusCode) (c : PWMChannel) :
    (PWMChannel.reset hw c).2.min_signal = c.min_signal ∧
    (PWMChannel.reset hw c).2.max_signal = c.max_signal := by
  unfold PWMChannel.reset PWMChannel.resetState
  by_cases h : c.is_setup <;> simp [h]

/-- `PWMChannel::set` never touches the calibration limits. -/
theorem set_limits (p : Nat) (c : PWMChannel) :
    (PWMChannel.set c p).min_signal = c.min_signal ∧
    (PWMChannel.set c p).max_signal = c.max_signal := by
  unfold PWMChannel.set
  by_cases h : c.has_limits <;> simp [h]

/-- On a channel with limits set, `set` writes exactly `width32` of the
(truncated) percentage. -/
theorem set_compare (c : PWMChannel) (p : Nat) (hl : c.has_limits = true) :
    (PWMChannel.set c p).compare
      = some (width32 c.min_signal c.max_signal (p % 256)) := by
  rw [PWMChannel.set, hl]
  simp

/-- C1, amended: for a channel with limits set, `min_signal <= max_signal`,
`percent` in `[0,100]`, and no `uint32_t` overflow of the interpolation
product, `set(percent)` writes `min_signal + (max_signal - min_signal) *
percent / 100` to the compare register; `set(0)` always writes `min_signal`,
and `set(100)` writes `max_signal` whenever its product does not overflow. -/
theorem pwm_C1 (c : PWMChannel) (percent : Nat)
    (hl : c.has_limits = true) (hord : c.min_signal ≤ c.max_signal)
    (hmax : c.max_signal < U32) (hp : percent ≤ 100)
    (hov : (c.max_signal - c.min_signal) * percent < U32) :
    (PWMChannel.set c percent).compare
      = some (c.min_signal + (c.max_signal - c.min_signal) * percent / 100) ∧
    (PWMChannel.set c 0).compare = some c.min_signal ∧
    ((c.max_signal - c.min_signal) * 100 < U32 →
      (PWMChannel.set c 100).compare = some c.max_signal) := by
  have hsum : ∀ p, p ≤ 100 →
      c.min_signal + (c.max_signal - c.min_signal) * p / 100 < U32 := by
    intro p hp2
    have := width32_offset_le c.min_signal c.max_signal p hp2
    omega
  refine ⟨?_, ?_, ?_⟩
  · rw [set_compare c percent hl, Nat.mod_eq_of_lt (by omega : percent < 256)]
    exact congrArg some (width32_exact _ _ _ hord hmax hov (hsum percent hp))
  · rw [set_compare c 0 hl]
    have h0 : (c.max_signal - c.min_signal) * 0 < U32 := by
      rw [Nat.mul_zero]
      decide
    rw [show (0 : Nat) % 256 = 0 from rfl,
      width32_exact _ _ _ hord hmax h0 (hsum 0 (by omega))]
    simp
  · intro hov100
    rw [set_compare c 100 hl, show (100 : Nat) % 256 = 100 from rfl,
      width32_exact _ _ _ hord hmax hov100 (hsum 100 le_rfl)]
    have : c.min_signal + (c.max_signal - c.min_signal) * 100 / 100 = c.max_signal := by
      rw [Nat.mul_div_cancel _ (by omega : (0 : Nat) < 100)]
      omega
    rw [this]

/-- C1 witness: the servo channel `(1000, 2000)` driven at 50 percent writes
1500 microseconds. -/
theorem pwm_C1_witness : (PWMChannel.set cServo 50).compare = some 1500 := by
  have h := (pwm_C1 cServo 50 rfl (by decide) (by decide) (by decide) (by decide)).1
  exact h.trans (by decide)

/-- C1 counterexample: with the ordered limits `(0, 4294967295)` and
`percent = 50`, the `uint32_t` evaluation writes 42949672, not the
2147483647 the exact formula demands — the product overflows. -/
theorem pwm_C1_cex :
    cWide.has_limits = true ∧
    cWide.min_signal ≤ cWide.max_signal ∧
    (PWMChannel.set cWide 50).compare = some 42949672 ∧
    cWide.min_signal + (cWide.max_signal - cWide.min_signal) * 50 / 100 = 2147483647 ∧
    (42949672 : Nat) ≠ 2147483647 := by decide

/-- C3, amended: the invariant `min_signal <= max_signal` holds in every
channel state reachable when every `setLimits` call passes ordered,
in-range bounds; `setLimits` itself performs no validation, so an
ill-ordered call (see the counterexample) breaks the invariant. -/
theorem pwm_C3 (c : PWMChannel) (h : ChannelReachableOrdered c) :
    c.min_signal ≤ c.max_signal := by
  induction h with
  | init => exact le_rfl
  | setupStep hw c _ ih =>
    rw [(setup_limits hw c).1, (setup_limits hw c).2]
    exact ih
  | resetStep hw c _ ih =>
    rw [(reset_limits hw c).1, (reset_limits hw c).2]
    exact ih
  | limitsStep mn mx c hord hmx _ _ =>
    show (PWMChannel.setLimits c mn mx).min_signal ≤ (PWMChannel.setLimits c mn mx).max_signal
    rw [PWMChannel.setLimits]
    simpa [Nat.mod_eq_of_lt (lt_of_le_of_lt hord hmx), Nat.mod_eq_of_lt hmx] using hord
  | setStep p c _ ih =>
    rw [(set_limits p c).1, (set_limits p c).2]
    exact ih

/-- C3 witness: the invariant holds at the default-constructed channel,
which is trivially reachable with ordered `setLimits` calls only. -/
theorem pwm_C3_witness : chInit.min_signal ≤ chInit.max_signal :=
  pwm_C3 chInit ChannelReachableOrdered.init

/-- C3 counterexample: `setLimits(10, 5)` is accepted unvalidated, so the
reachable state it produces violates `min_signal <= max_signal` — the
operation does not preserve the claimed invariant. -/
theorem pwm_C3_cex :
    ChannelReachable (PWMChannel.setLimits chInit 10 5) ∧
    ¬ (PWMChannel.setLimits chInit 10 5).min_signal
        ≤ (PWMChannel.setLimits chInit 10 5).max_signal :=
  ⟨ChannelReachable.limitsStep 10 5 chInit ChannelReachable.init, by decide⟩

/-- C7, amended: on a channel with ordered limits, the pulse width written
by `set` is monotonically non-decreasing in `percent` over `[0,100]`
provided the interpolation product at the larger percentage does not
overflow `uint32_t`; with overflow (see the counterexample) monotonicity
fails. -/
theorem pwm_C7 (c : PWMChannel) (p1 p2 : Nat)
    (hl : c.has_limits = true) (hord : c.min_signal ≤ c.max_signal)
    (hmax : c.max_signal < U32) (h12 : p1 ≤ p2) (h2 : p2 ≤ 100)
    (hov : (c.max_signal - c.min_signal) * p2 < U32) :
    width32 c.min_signal c.max_signal p1 ≤ width32 c.min_signal c.max_signal p2 ∧
    (PWMChannel.set c p1).compare = some (width32 c.min_signal c.max_signal p1) ∧
    (PWMChannel.set c p2).compare = some (width32 c.min_signal c.max_signal p2) := by
  have hov1 : (c.max_signal - c.min_signal) * p1 < U32 :=
    lt_of_le_of_lt (Nat.mul_le_mul le_rfl h12) hov
  have hsum : ∀ p, p ≤ 100 →
      c.min_signal + (c.max_signal - c.min_signal) * p / 100 < U32 := by
    intro p hp2
    have := width32_offset_le c.min_signal c.max_signal p hp2
    omega
  refine ⟨?_, ?_, ?_⟩
  · rw [width32_exact _ _ _ hord hmax hov1 (hsum p1 (le_trans h12 h2)),
      width32_exact _ _ _ hord hmax hov (hsum p2 h2)]
    have : (c.max_signal - c.min_signal) * p1 / 100
        ≤ (c.max_signal - c.min_signal) * p2 / 100 :=
      Nat.div_le_div_right (Nat.mul_le_mul le_rfl h12)
    omega
  · rw [set_compare c p1 hl, Nat.mod_eq_of_lt (by omega : p1 < 256)]
  · rw [set_compare c p2 hl, Nat.mod_eq_of_lt (by omega : p2 < 256)]

/-- C7 witness: on the servo channel `(1000, 2000)`, the width at 25 percent
is at most the width at 75 percent. -/
theorem pwm_C7_witness :
    width32 cServo.min_signal cServo.max_signal 25
      ≤ width32 cServo.min_signal cServo.max_signal 75 :=
  (pwm_C7 cServo 25 75 rfl (by decide) (by decide) (by decide) (by decide) (by decide)).1

/-- C7 counterexample: with the ordered limits `(0, 4294967295)`,
`set(50)` writes 42949672 but `set(100)` writes only 42949671 — the
`uint32_t` width is not monotone in `percent` on `[0,100]`. -/
theorem pwm_C7_cex :
    cWide.min_signal ≤ cWide.max_signal ∧
    (50 : Nat) ≤ 100 ∧
    (PWMChannel.set cWide 50).compare = some 42949672 ∧
    (PWMChannel.set cWide 100).compare = some 42949671 ∧
    ¬ (42949672 : Nat) ≤ 42949671 := by decide

/-- C9: a channel on which `setLimits` has never been called does not accept
percentage commands — `set` writes nothing and leaves the state unchanged. -/
theorem pwm_C9 (c : PWMChannel) (percent : Nat) (h : c.has_limits = false) :
    PWMChannel.set c percent = c := by
  rw [PWMChannel.set, h]
  simp

/-- C9 witness: `set(42)` on a default-constructed channel is a no-op. -/
theorem pwm_C9_witness : PWMChannel.set chInit 42 = chInit :=
  pwm_C9 chInit 42 rfl

/-- C10, amended: `percent` is a `uint8_t`, so the interface accepts every
value 0-255 unclamped; for a channel with `min_signal < max_signal` and
`percent > 100`, the `uint32_t` interpolation yields a width greater than or
equal to `max_signal` whenever neither the product nor the final addition
overflows (equality is possible, see the counterexample, so "strictly
greater" fails). -/
theorem pwm_C10 (c : PWMChannel) (percent : Nat)
    (hl : c.has_limits = true) (hord : c.min_signal < c.max_signal)
    (hmax : c.max_signal < U32) (hp1 : 100 < percent) (hp2 : percent < 256)
    (hov1 : (c.max_signal - c.min_signal) * percent < U32)
    (hov2 : c.min_signal + (c.max_signal - c.min_signal) * percent / 100 < U32) :
    (PWMChannel.set c percent).compare
      = some (c.min_signal + (c.max_signal - c.min_signal) * percent / 100) ∧
    c.max_signal ≤ c.min_signal + (c.max_signal - c.min_signal) * percent / 100 := by
  constructor
  · rw [set_compare c percent hl, Nat.mod_eq_of_lt hp2]
    exact congrArg some (width32_exact _ _ _ (le_of_lt hord) hmax hov1 hov2)
  · have hd : c.max_signal - c.min_signal
        ≤ (c.max_signal - c.min_signal) * percent / 100 := by
      rw [Nat.le_div_iff_mul_le (by omega : (0 : Nat) < 100)]
      exact Nat.mul_le_mul le_rfl (le_of_lt hp1)
    omega

/-- C10 witness: limits `(1000, 2000)` at 150 percent give width 2500, at
least the maximum signal 2000. -/
theorem pwm_C10_witness : (PWMChannel.set cServo 150).compare = some 2500 := by
  have h := (pwm_C10 cServo 150 rfl (by decide) (by decide) (by decide) (by decide)
    (by decide) (by decide)).1
  exact h.trans (by decide)

/-- C10 counterexample: limits `(0, 1)` at 101 percent incur no overflow,
yet the width written equals `max_signal = 1` — it is not strictly greater
than `max_signal`. -/
theorem pwm_C10_cex :
    cNarrow.min_signal < cNarrow.max_signal ∧
    (100 : Nat) < 101 ∧
    (cNarrow.max_signal - cNarrow.min_signal) * 101 < U32 ∧
    cNarrow.min_signal + (cNarrow.max_signal - cNarrow.min_signal) * 101 / 100 < U32 ∧
    (PWMChannel.set cNarrow 101).compare = some 1 ∧
    ¬ cNarrow.max_signal < 1 := by decide

/-- Updating one channel leaves the others untouched. -/
theorem updateChannel_ne (st : PWMManager) (i : Fin 12) (c : PWMChannel)
    (j : Fin 12) (h : j ≠ i) : (updateChannel st i c).channels j = st.channels j := by
  simp [updateChannel, Function.update_noteq h]

/-- Updating one channel stores exactly that channel. -/
theorem updateChannel_self (st : PWMManager) (i : Fin 12) (c : PWMChannel) :
    (updateChannel st i c).channels i = c := by
  simp [updateChannel]

/-- Updating a channel does not change the manager's `is_setup` flag. -/
theorem updateChannel_is_setup (st : PWMManager) (i : Fin 12) (c : PWMChannel) :
    (updateChannel st i c).is_setup = st.is_setup := rfl

/-- A channel that is not set up is left alone by `reset`, which reports
success. -/
theorem reset_noop (hw : StatusCode) (c : PWMChannel) (h : c.is_setup = false) :
    PWMChannel.reset hw c = (.Success, c) := by
  simp [PWMChannel.reset, h]

/-- After `PWMChannel::reset` the channel is never marked set up. -/
theorem reset_clears_is_setup (hw : StatusCode) (c : PWMChannel) :
    (PWMChannel.reset hw c).2.is_setup = false := by
  by_cases h : c.is_setup <;> simp [PWMChannel.reset, PWMChannel.resetState, h]


/-- Unfolding: the setup loop with no gas left. -/
theorem setupFromGas_zero (hwS : Fin 12 → StatusCode) (i : Nat) (st : PWMManager) :
    setupFromGas hwS 0 i st = (.Success, { st with is_setup := true }) := rfl

/-- Unfolding: one step of the setup loop. -/
theorem setupFromGas_succ (hwS : Fin 12 → StatusCode) (gas i : Nat) (st : PWMManager) :
    setupFromGas hwS (gas + 1) i st =
      if h : i < 12 then
        if hwS ⟨i, h⟩ = .Success then
          setupFromGas hwS gas (i + 1)
            (updateChannel st ⟨i, h⟩ (PWMChannel.setup (hwS ⟨i, h⟩) (st.channels ⟨i, h⟩)).2)
        else
          (hwS ⟨i, h⟩, updateChannel st ⟨i, h⟩ (PWMChannel.setup (hwS ⟨i, h⟩) (st.channels ⟨i, h⟩)).2)
      else (.Success, { st with is_setup := true }) := rfl

/-- Unfolding: the reset loop with no gas left. -/
theorem resetFromGas_zero (hwR : Fin 12 → StatusCode) (i : Nat) (acc : StatusCode)
    (st : PWMManager) :
    resetFromGas hwR 0 i acc st = (acc, { st with is_setup := false }) := rfl

/-- Unfolding: one step of the reset loop. -/
theorem resetFromGas_succ (hwR : Fin 12 → StatusCode) (gas i : Nat) (acc : StatusCode)
    (st : PWMManager) :
    resetFromGas hwR (gas + 1) i acc st =
      if h : i < 12 then
        resetFromGas hwR gas (i + 1)
          (if acc = .Success then (PWMChannel.reset (hwR ⟨i, h⟩) (st.channels ⟨i, h⟩)).1 else acc)
          (updateChannel st ⟨i, h⟩ (PWMChannel.reset (hwR ⟨i, h⟩) (st.channels ⟨i, h⟩)).2)
      else (acc, { st with is_setup := false }) := rfl

/-- If every remaining oracle outcome is success, the setup loop succeeds
and marks the manager set up. -/
theorem setupFromGas_all_success (hwS : Fin 12 → StatusCode) (gas : Nat) :
    ∀ (i : Nat) (st : PWMManager), (∀ j : Fin 12, i ≤ j.val → hwS j = .Success) →
      (setupFromGas hwS gas i st).1 = .Success ∧
      (setupFromGas hwS gas i st).2.is_setup = true := by
  induction gas with
  | zero =>
    intro i st _
    rw [setupFromGas_zero]
    exact ⟨rfl, rfl⟩
  | succ gas ih =>
    intro i st h
    rw [setupFromGas_succ]
    by_cases hi : i < 12
    · rw [dif_pos hi, if_pos (h ⟨i, hi⟩ le_rfl)]
      exact ih (i + 1) _ (fun j hj => h j (by omega))
    · rw [dif_neg hi]
      exact ⟨rfl, rfl⟩

/-- If the oracle succeeds on every channel before `k` but fails at `k`, the
setup loop started at or before `k` stops at `k`: it reports `k`'s status,
leaves `is_setup` as it was, and never touches the channels after `k`. -/
theorem setupFromGas_first_fail (hwS : Fin 12 → StatusCode) (gas : Nat) :
    ∀ (i : Nat) (st : PWMManager) (k : Fin 12), i + gas = 12 → i ≤ k.val →
      (∀ j : Fin 12, i ≤ j.val → j.val < k.val → hwS j = .Success) →
      hwS k ≠ .Success →
      (setupFromGas hwS gas i st).1 = hwS k ∧
      (setupFromGas hwS gas i st).2.is_setup = st.is_setup ∧
      ∀ j : Fin 12, k.val < j.val →
        (setupFromGas hwS gas i st).2.channels j = st.channels j := by
  induction gas with
  | zero =>
    intro i st k hgas hik _ _
    have := k.isLt
    omega
  | succ gas ih =>
    intro i st k hgas hik hs hf
    have hi : i < 12 := by
      have := k.isLt
      omega
    rw [setupFromGas_succ, dif_pos hi]
    by_cases hik2 : i = k.val
    · have hk : (⟨i, hi⟩ : Fin 12) = k := Fin.ext hik2
      rw [hk, if_neg hf]
      refine ⟨rfl, rfl, ?_⟩
      intro j hj
      exact updateChannel_ne st k _ j (Fin.ne_of_val_ne (by omega))
    · have hsi : hwS ⟨i, hi⟩ = .Success := hs ⟨i, hi⟩ le_rfl (show i < k.val by omega)
      rw [if_pos hsi]
      obtain ⟨h1, h2, h3⟩ := ih (i + 1)
        (updateChannel st ⟨i, hi⟩ (PWMChannel.setup (hwS ⟨i, hi⟩) (st.channels ⟨i, hi⟩)).2)
        k (by omega) (by omega) (fun j hj1 hj2 => hs j (by omega) hj2) hf
      refine ⟨h1, ?_, ?_⟩
      · rw [h2, updateChannel_is_setup]
      · intro j hj
        rw [h3 j hj,
          updateChannel_ne st ⟨i, hi⟩ _ j (Fin.ne_of_val_ne (show j.val ≠ i by omega))]

/-- The reset loop applies `PWMChannel::reset` to every channel from `i`
on, and leaves the earlier ones untouched. -/
theorem resetFromGas_channels (hwR : Fin 12 → StatusCode) (gas : Nat) :
    ∀ (i : Nat) (acc : StatusCode) (st : PWMManager), i + gas = 12 →
      ∀ j : Fin 12, (resetFromGas hwR gas i acc st).2.channels j
        = if i ≤ j.val then (PWMChannel.reset (hwR j) (st.channels j)).2
          else st.channels j := by
  induction gas with
  | zero =>
    intro i acc st hgas j
    have := j.isLt
    rw [resetFromGas_zero, if_neg (by omega)]
  | succ gas ih =>
    intro i acc st hgas j
    have hi : i < 12 := by omega
    rw [resetFromGas_succ, dif_pos hi, ih (i + 1) _ _ (by omega) j]
    by_cases hj2 : i + 1 ≤ j.val
    · rw [if_pos hj2, if_pos (by omega : i ≤ j.val),
        updateChannel_ne st ⟨i, hi⟩ _ j (Fin.ne_of_val_ne (show j.val ≠ i by omega))]
    · by_cases hj : i ≤ j.val
      · have he : j = ⟨i, hi⟩ := Fin.ext (show j.val = i by omega)
        rw [if_neg hj2, if_pos hj, he, updateChannel_self]
      · rw [if_neg hj2, if_neg hj,
          updateChannel_ne st ⟨i, hi⟩ _ j (Fin.ne_of_val_ne (show j.val ≠ i by omega))]

/-- The reset loop always ends with `is_setup = false`. -/
theorem resetFromGas_is_setup (hwR : Fin 12 → StatusCode) (gas : Nat) :
    ∀ (i : Nat) (acc : StatusCode) (st : PWMManager),
      (resetFromGas hwR gas i acc st).2.is_setup = false := by
  induction gas with
  | zero => intro i acc st; rfl
  | succ gas ih =>
    intro i acc st
    rw [resetFromGas_succ]
    by_cases hi : i < 12
    · rw [dif_pos hi]
      exact ih (i + 1) _ _
    · rw [dif_neg hi]

/-- Once the accumulator holds a failure, the reset loop returns it
unchanged. -/
theorem resetFromGas_stuck (hwR : Fin 12 → StatusCode) (gas : Nat) :
    ∀ (i : Nat) (acc : StatusCode) (st : PWMManager), acc ≠ .Success →
      (resetFromGas hwR gas i acc st).1 = acc := by
  induction gas with
  | zero => intro i acc st _; rfl
  | succ gas ih =>
    intro i acc st hacc
    rw [resetFromGas_succ]
    by_cases hi : i < 12
    · rw [dif_pos hi, if_neg hacc]
      exact ih (i + 1) _ _ hacc
    · rw [dif_neg hi]

/-- If every remaining per-channel reset succeeds, the reset loop preserves
the accumulator. -/
theorem resetFromGas_all_success (hwR : Fin 12 → StatusCode) (gas : Nat) :
    ∀ (i : Nat) (acc : StatusCode) (st : PWMManager),
      (∀ j : Fin 12, i ≤ j.val → (PWMChannel.reset (hwR j) (st.channels j)).1 = .Success) →
      (resetFromGas hwR gas i acc st).1 = acc := by
  induction gas with
  | zero => intro i acc st _; rfl
  | succ gas ih =>
    intro i acc st h
    rw [resetFromGas_succ]
    by_cases hi : i < 12
    · rw [dif_pos hi]
      have hs : (PWMChannel.reset (hwR ⟨i, hi⟩) (st.channels ⟨i, hi⟩)).1 = .Success :=
        h ⟨i, hi⟩ le_rfl
      have htrans : ∀ j : Fin 12, i + 1 ≤ j.val →
          (PWMChannel.reset (hwR j)
            ((updateChannel st ⟨i, hi⟩
              (PWMChannel.reset (hwR ⟨i, hi⟩) (st.channels ⟨i, hi⟩)).2).channels j)).1
          = .Success := by
        intro j hj
        rw [updateChannel_ne st ⟨i, hi⟩ _ j (Fin.ne_of_val_ne (show j.val ≠ i by omega))]
        exact h j (by omega)
      rw [ih (i + 1) _ _ htrans]
      by_cases hacc : acc = .Success
      · rw [if_pos hacc, hs, hacc]
      · rw [if_neg hacc]
    · rw [dif_neg hi]

/-- If every per-channel reset before `k` succeeds and `k`'s fails, the
reset loop started with a success accumulator reports `k`'s status. -/
theorem resetFromGas_first_fail (hwR : Fin 12 → StatusCode) (gas : Nat) :
    ∀ (i : Nat) (st : PWMManager) (k : Fin 12), i + gas = 12 → i ≤ k.val →
      (∀ j : Fin 12, i ≤ j.val → j.val < k.val →
        (PWMChannel.reset (hwR j) (st.channels j)).1 = .Success) →
      (PWMChannel.reset (hwR k) (st.channels k)).1 ≠ .Success →
      (resetFromGas hwR gas i .Success st).1
        = (PWMChannel.reset (hwR k) (st.channels k)).1 := by
  induction gas with
  | zero =>
    intro i st k hgas hik _ _
    have := k.isLt
    omega
  | succ gas ih =>
    intro i st k hgas hik hs hf
    have hi : i < 12 := by
      have := k.isLt
      omega
    rw [resetFromGas_succ, dif_pos hi]
    by_cases hik2 : i = k.val
    · have hk : (⟨i, hi⟩ : Fin 12) = k := Fin.ext hik2
      rw [hk, if_pos rfl, resetFromGas_stuck hwR gas (i + 1) _ _ hf]
    · have hsi : (PWMChannel.reset (hwR ⟨i, hi⟩) (st.channels ⟨i, hi⟩)).1 = .Success :=
        hs ⟨i, hi⟩ le_rfl (show i < k.val by omega)
      rw [if_pos rfl, hsi]
      have hne : ∀ j : Fin 12, i < j.val →
          (updateChannel st ⟨i, hi⟩
            (PWMChannel.reset (hwR ⟨i, hi⟩) (st.channels ⟨i, hi⟩)).2).channels j
          = st.channels j := by
        intro j hj
        exact updateChannel_ne st ⟨i, hi⟩ _ j (Fin.ne_of_val_ne (show j.val ≠ i by omega))
      have hrec := ih (i + 1)
        (updateChannel st ⟨i, hi⟩ (PWMChannel.reset (hwR ⟨i, hi⟩) (st.channels ⟨i, hi⟩)).2)
        k (by omega) (by omega)
        (fun j hj1 hj2 => by
          rw [hne j (by omega)]
          exact hs j (by omega) hj2)
        (by
          rw [hne k (by omega)]
          exact hf)
      rw [hrec, hne k (by omega)]

/-- The implicit-reset preamble always leaves `is_setup = false` before the
setup loop begins. -/
theorem setupBase_is_setup (hwR : Fin 12 → StatusCode) (st : PWMManager) :
    (PWMManager.setupBase hwR st).is_setup = false := by
  unfold PWMManager.setupBase
  split
  · exact resetFromGas_is_setup hwR 12 0 _ _
  · next h => simpa using h

/-- Re-entry: `setup` on an already-set-up manager equals `setup` started
from the reset state. -/
theorem setup_reentry (hwS hwR : Fin 12 → StatusCode) (st : PWMManager)
    (h : st.is_setup = true) :
    PWMManager.setup hwS hwR st
      = PWMManager.setup hwS hwR (PWMManager.reset hwR st).2 := by
  unfold PWMManager.setup PWMManager.setupBase
  have h2 : (PWMManager.reset hwR st).2.is_setup = false :=
    resetFromGas_is_setup hwR 12 0 _ _
  rw [if_pos h, if_neg (by rw [h2]; simp)]

/-- The manager's reset applies the channel reset to every channel. -/
theorem managerReset_channels (hwR : Fin 12 → StatusCode) (st : PWMManager) (j : Fin 12) :
    (PWMManager.reset hwR st).2.channels j
      = (PWMChannel.reset (hwR j) (st.channels j)).2 := by
  have h := resetFromGas_channels hwR 12 0 .Success st rfl j
  rwa [if_pos (Nat.zero_le _)] at h

/-- The manager's reset always clears `is_setup`. -/
theorem managerReset_is_setup (hwR : Fin 12 → StatusCode) (st : PWMManager) :
    (PWMManager.reset hwR st).2.is_setup = false :=
  resetFromGas_is_setup hwR 12 0 .Success st

/-- Resetting the state left by a channel reset changes nothing. -/
theorem reset_state_idem (hw hw2 : StatusCode) (c : PWMChannel) :
    (PWMChannel.reset hw2 (PWMChannel.reset hw c).2).2 = (PWMChannel.reset hw c).2 := by
  rw [reset_noop hw2 _ (reset_clears_is_setup hw c)]

/-- C2: `configure(group, setting)` succeeds, applies
`setLimits(min_length, max_length)` to exactly the member channels of the
static group table, leaves every other channel unchanged, and the table is
GROUP_1 to channel 0, GROUP_2 to channel 1, GROUP_3_4 to channels 2-3,
GROUP_5_8 to channels 4-7, GROUP_9_12 to channels 8-11. -/
theorem pwm_C2 (g : PWMGroup) (s : PWMGroupSetting) (st : PWMManager)
    (hmin : s.min_length < U32) (hmax : s.max_length < U32) :
    (PWMManager.configure true g s st).1 = .Success ∧
    (∀ i : Fin 12, i ∈ groupChannels g →
      (PWMManager.configure true g s st).2.channels i
        = PWMChannel.setLimits (st.channels i) s.min_length s.max_length ∧
      ((PWMManager.configure true g s st).2.channels i).min_signal = s.min_length ∧
      ((PWMManager.configure true g s st).2.channels i).max_signal = s.max_length) ∧
    (∀ i : Fin 12, i ∉ groupChannels g →
      (PWMManager.configure true g s st).2.channels i = st.channels i) ∧
    groupChannels .PWM_GROUP_1 = [0] ∧ groupChannels .PWM_GROUP_2 = [1] ∧
    groupChannels .PWM_GROUP_3_4 = [2, 3] ∧
    groupChannels .PWM_GROUP_5_8 = [4, 5, 6, 7] ∧
    groupChannels .PWM_GROUP_9_12 = [8, 9, 10, 11] := by
  have hch : ∀ i : Fin 12, (PWMManager.configure true g s st).2.channels i
      = if i ∈ groupChannels g then
          PWMChannel.setLimits (st.channels i) s.min_length s.max_length
        else st.channels i := fun i => rfl
  refine ⟨rfl, ?_, ?_, rfl, rfl, rfl, rfl, rfl⟩
  · intro i hi
    rw [hch i, if_pos hi]
    exact ⟨rfl, Nat.mod_eq_of_lt hmin, Nat.mod_eq_of_lt hmax⟩
  · intro i hi
    rw [hch i, if_neg hi]

/-- C2 witness: configuring group 3-4 with bounds `(1000, 2000)` stores
those limits on channels 2 and 3. -/
theorem pwm_C2_witness :
    ((PWMManager.configure true .PWM_GROUP_3_4 ⟨20000, 1000, 2000, false⟩
        mInit).2.channels 2).min_signal = 1000 ∧
    ((PWMManager.configure true .PWM_GROUP_3_4 ⟨20000, 1000, 2000, false⟩
        mInit).2.channels 3).max_signal = 2000 := by
  have h := pwm_C2 .PWM_GROUP_3_4 ⟨20000, 1000, 2000, false⟩ mInit (by decide) (by decide)
  exact ⟨(h.2.1 2 (by decide)).2.1, (h.2.1 3 (by decide)).2.2⟩

/-- C4: `channel(num)` resolves to index `num` for `num < 12` and to index 0
for every invalid index (so the resolved index is always in bounds), the
returned channel is exactly `channels` at that index, and `channel(99)`
aliases `channel(0)`. -/
theorem pwm_C4 :
    (∀ num : Nat, ((PWMManager.channelIndex num) : Nat) = if num < 12 then num else 0) ∧
    (∀ num : Nat, ((PWMManager.channelIndex num) : Nat) < 12) ∧
    (∀ (st : PWMManager) (num : Nat),
      PWMManager.channel st num = st.channels (PWMManager.channelIndex num)) ∧
    PWMManager.channelIndex 99 = PWMManager.channelIndex 0 := by
  refine ⟨?_, fun num => (PWMManager.channelIndex num).isLt, fun st num => rfl, rfl⟩
  intro num
  unfold PWMManager.channelIndex
  by_cases h : num < 12
  · rw [if_pos h, dif_pos h]
  · rw [if_neg h, dif_neg h]

/-- C5: the manager's `setup` performs a full reset first when already set
up; if every channel setup succeeds it returns success and marks
`is_setup`; the first channel failure aborts the 0-to-11 sequence, its
status code is returned unchanged, `is_setup` stays false, and the channels
after the failing one are untouched. -/
theorem pwm_C5 (hwS hwR : Fin 12 → StatusCode) (st : PWMManager) :
    (st.is_setup = true →
      PWMManager.setup hwS hwR st
        = PWMManager.setup hwS hwR (PWMManager.reset hwR st).2) ∧
    ((∀ i : Fin 12, hwS i = .Success) →
      (PWMManager.setup hwS hwR st).1 = .Success ∧
      (PWMManager.setup hwS hwR st).2.is_setup = true) ∧
    (∀ k : Fin 12, (∀ j : Fin 12, j.val < k.val → hwS j = .Success) →
      hwS k ≠ .Success →
      (PWMManager.setup hwS hwR st).1 = hwS k ∧
      (PWMManager.setup hwS hwR st).2.is_setup = false ∧
      ∀ j : Fin 12, k.val < j.val →
        (PWMManager.setup hwS hwR st).2.channels j
          = (PWMManager.setupBase hwR st).channels j) := by
  refine ⟨setup_reentry hwS hwR st, ?_, ?_⟩
  · intro h
    exact setupFromGas_all_success hwS 12 0 (PWMManager.setupBase hwR st) (fun j _ => h j)
  · intro k hs hf
    obtain ⟨h1, h2, h3⟩ := setupFromGas_first_fail hwS 12 0 (PWMManager.setupBase hwR st)
      k rfl (Nat.zero_le _) (fun j _ hj => hs j hj) hf
    exact ⟨h1, h2.trans (setupBase_is_setup hwR st), h3⟩

/-- C5 witness: with channels 0-2 succeeding and channel 3 failing with
`InvalidArgument`, `setup` returns `InvalidArgument` and the manager is not
marked set up. -/
theorem pwm_C5_witness :
    (PWMManager.setup hwFail3 hwAllOk mInit).1 = .InvalidArgument ∧
    (PWMManager.setup hwFail3 hwAllOk mInit).2.is_setup = false := by
  have h := (pwm_C5 hwFail3 hwAllOk mInit).2.2 ⟨3, by omega⟩ (by decide) (by decide)
  exact ⟨h.1.trans (by decide), h.2.1⟩

/-- C6: the manager's `reset` applies the channel reset to all 12 channels
(continuing past failures), clears `is_setup`, returns success when every
channel reset succeeds, and otherwise returns the first failing channel's
status code. -/
theorem pwm_C6 (hwR : Fin 12 → StatusCode) (st : PWMManager) :
    (∀ j : Fin 12, (PWMManager.reset hwR st).2.channels j
      = (PWMChannel.reset (hwR j) (st.channels j)).2) ∧
    (PWMManager.reset hwR st).2.is_setup = false ∧
    ((∀ j : Fin 12, (PWMChannel.reset (hwR j) (st.channels j)).1 = .Success) →
      (PWMManager.reset hwR st).1 = .Success) ∧
    (∀ k : Fin 12, (∀ j : Fin 12, j.val < k.val →
        (PWMChannel.reset (hwR j) (st.channels j)).1 = .Success) →
      (PWMChannel.reset (hwR k) (st.channels k)).1 ≠ .Success →
      (PWMManager.reset hwR st).1
        = (PWMChannel.reset (hwR k) (st.channels k)).1) := by
  refine ⟨managerReset_channels hwR st, resetFromGas_is_setup hwR 12 0 _ _, ?_, ?_⟩
  · intro h
    exact resetFromGas_all_success hwR 12 0 .Success st (fun j _ => h j)
  · intro k hs hf
    exact resetFromGas_first_fail hwR 12 0 st k rfl (Nat.zero_le _)
      (fun j _ hj => hs j hj) hf

/-- C6 witness: with channel 2 set up and a pin-reset primitive that fails,
`reset` still runs through all channels and reports the failure. -/
theorem pwm_C6_witness :
    (PWMManager.reset (fun _ => .HardwareConfigurationFailure)
      (updateChannel mInit 2 { chInit with is_setup := true })).1
      = .HardwareConfigurationFailure := by
  have h := (pwm_C6 (fun _ => .HardwareConfigurationFailure)
    (updateChannel mInit 2 { chInit with is_setup := true })).2.2.2
    ⟨2, by omega⟩ (by decide) (by decide)
  exact h.trans (by decide)

/-- C8: the manager's `reset` is idempotent on the state; `setup` on an
already-set-up manager equals a fresh `setup` from the reset state; channel
`reset` on an already-reset channel is a no-op returning success; and
channel `setup` has the same re-entry semantics as the manager's. -/
theorem pwm_C8 (hwS hwR : Fin 12 → StatusCode) (st : PWMManager)
    (hw hw2 : StatusCode) (c : PWMChannel) :
    (PWMManager.reset hwR (PWMManager.reset hwR st).2).2 = (PWMManager.reset hwR st).2 ∧
    (st.is_setup = true →
      PWMManager.setup hwS hwR st
        = PWMManager.setup hwS hwR (PWMManager.reset hwR st).2) ∧
    (c.is_setup = false → PWMChannel.reset hw c = (.Success, c)) ∧
    (c.is_setup = true →
      PWMChannel.setup hw c = PWMChannel.setup hw (PWMChannel.reset hw2 c).2) := by
  refine ⟨?_, setup_reentry hwS hwR st, reset_noop hw c, ?_⟩
  · refine PWMManager.ext ?_ ?_
    · funext j
      rw [managerReset_channels hwR (PWMManager.reset hwR st).2 j,
        managerReset_channels hwR st j, reset_state_idem]
    · rw [managerReset_is_setup, managerReset_is_setup]
  · intro h
    simp [PWMChannel.setup, PWMChannel.reset, PWMChannel.resetState, h]

/-- C8 witness: re-running channel `setup` on a set-up channel equals
running it on the reset channel. -/
theorem pwm_C8_witness :
    PWMChannel.setup .Success { chInit with is_setup := true }
      = PWMChannel.setup .Success
          (PWMChannel.reset .Success { chInit with is_setup := true }).2 :=
  (pwm_C8 hwAllOk hwAllOk mInit .Success .Success
    { chInit with is_setup := true }).2.2.2 rfl
